import Mathlib

/-!
# SD library on a POSIX host (`libraries/SD/src/SD.cpp`)

A shallow embedding of the `File` / `SDClass` translation layer together with a
small executable model of the host services it calls (path lookup, `stat`,
`mkdir`, stdio streams, directory streams, the mount table, `basename`,
`snprintf`).

Conventions of the host model:
* a C string is the list of its characters before the terminating NUL,
  one `Char` per byte;
* a null pointer is `none`; an operation whose C behaviour is undefined
  (dereferencing a null or dangling pointer, reading outside an array) yields
  `none` at the outermost level of its result;
* the file system has no symbolic links, permissions or resource limits;
* a stdio stream keeps what is written to it in its buffer; the bytes reach
  the file when the stream is flushed (`fflush`, `fclose`, a seek, or a read
  on the same stream);
* a C `long` is an unbounded `Int`; the narrowing casts of the source
  (`(uint32_t)`, `(int)`) are explicit.
-/

namespace SD

/-- A C string without its terminating NUL. -/
abbrev CStr := List Char

/-- One byte of file data. -/
abbrev Byte := Fin 256

/-! ## Host model: the file system -/

/-- What a path can name. -/
inductive Node where
  | file (data : List Byte)
  | dir
  | special
deriving DecidableEq, Repr

/-- The file system: canonical paths (lists of names from the root) and the
nodes they name. The root `[]` is always a directory. -/
abbrev FileSys := List (List CStr × Node)

/-- Node stored under a canonical path. -/
def fsLookup (fs : FileSys) (key : List CStr) : Option Node :=
  if key = [] then some Node.dir else (fs.find? (fun e => decide (e.1 = key))).map Prod.snd

/-- Is the canonical path a directory. -/
def fsIsDir (fs : FileSys) (key : List CStr) : Bool :=
  decide (fsLookup fs key = some Node.dir)

/-- Replace the data of the regular file stored under `key`. -/
def fsSetData (fs : FileSys) (key : List CStr) (data : List Byte) : FileSys :=
  fs.map (fun e => if e.1 = key then (e.1, Node.file data) else e)

/-- Splitting a path at `/`: `cur` is the component being read. Empty
components (repeated or trailing slashes) are dropped. -/
def pathComponentsAux : List Char → List Char → List CStr
  | cur, [] => if cur = [] then [] else [cur]
  | cur, c :: cs =>
    if c = '/' then
      (if cur = [] then pathComponentsAux [] cs else cur :: pathComponentsAux [] cs)
    else pathComponentsAux (cur ++ [c]) cs

/-- The components of a path. -/
def pathComponents (path : CStr) : List CStr := pathComponentsAux [] path

/-- Does the path end in a slash. -/
def trailingSlash (path : CStr) : Bool := decide (path.getLast? = some '/')

/-- One step of path lookup from the directory `cur`. -/
def walkStep (cur : List CStr) (c : CStr) : List CStr :=
  if c = ['.'] then cur else if c = ['.', '.'] then cur.dropLast else cur ++ [c]

/-- Path lookup: every component is looked up in a directory. The result is the
canonical path of the last component, which need not exist. -/
def walk (fs : FileSys) : List CStr → List CStr → Option (List CStr)
  | cur, [] => some cur
  | cur, c :: cs => if fsIsDir fs cur then walk fs (walkStep cur c) cs else none

/-- Canonical location a path names once all its leading components resolve
(`none`: ENOENT or ENOTDIR on the way). -/
def namei (fs : FileSys) (path : CStr) : Option (List CStr) :=
  if path = [] then none else walk fs [] (pathComponents path)

/-- Model of `stat(2)`: the node a path names, `none` when `stat` fails. -/
def sys_stat (fs : FileSys) (path : CStr) : Option Node :=
  match namei fs path with
  | none => none
  | some key =>
    match fsLookup fs key with
    | none => none
    | some Node.dir => some Node.dir
    | some n => if trailingSlash path then none else some n

/-! ## Host model: streams and the host state -/

/-- An open stdio stream (`FILE`). -/
structure FStream where
  /-- The file the stream is open on. -/
  key : List CStr
  /-- Current offset. -/
  pos : Nat
  /-- Opened with "a+" (readable, every write appends); otherwise "r". -/
  append : Bool
  /-- Bytes written to the stream and not yet flushed to the file. -/
  buf : List Byte
deriving DecidableEq, Repr

/-- An open directory stream (`DIR`). -/
structure DStream where
  /-- The entries in the order `readdir` returns them. -/
  entries : List CStr
  /-- Number of entries already returned. -/
  pos : Nat
deriving DecidableEq, Repr

/-- One entry of the mount table (`struct mntent`); only the field read by the
source is kept. -/
structure Mntent where
  mnt_dir : Option CStr
deriving DecidableEq, Repr

/-- The host: file system, open streams by address, the mount table
(`none`: `/etc/mtab` cannot be opened) and the record of `mkdir(2)` calls. -/
structure Host where
  fs : FileSys
  files : List (Nat × FStream)
  dirs : List (Nat × DStream)
  next : Nat
  mtab : Option (List Mntent)
  mkdirCalls : List CStr
deriving DecidableEq, Repr

/-- Stream behind a `FILE *`. -/
def Host.file (h : Host) (id : Nat) : Option FStream :=
  (h.files.find? (fun e => e.1 == id)).map Prod.snd

/-- Stream behind a `DIR *`. -/
def Host.dir (h : Host) (id : Nat) : Option DStream :=
  (h.dirs.find? (fun e => e.1 == id)).map Prod.snd

/-- Data of the regular file under `key` (empty when there is none). -/
def Host.data (h : Host) (key : List CStr) : List Byte :=
  match fsLookup h.fs key with
  | some (Node.file d) => d
  | _ => []

/-- Update the stream behind a `FILE *`. -/
def Host.setFile (h : Host) (id : Nat) (s : FStream) : Host :=
  { h with files := h.files.map (fun e => if e.1 = id then (e.1, s) else e) }

/-- Flushing the stream `s` behind a `FILE *`: its pending bytes are appended
to the file and its buffer is emptied. -/
def Host.flush (h : Host) (id : Nat) (s : FStream) : Host :=
  match fsLookup h.fs s.key with
  | some (Node.file d) =>
    ({ h with fs := fsSetData h.fs s.key (d ++ s.buf) }).setFile id { s with buf := [] }
  | _ => h.setFile id { s with buf := [] }

/-- Update the stream behind a `DIR *`. -/
def Host.setDir (h : Host) (id : Nat) (s : DStream) : Host :=
  { h with dirs := h.dirs.map (fun e => if e.1 = id then (e.1, s) else e) }

/-- Model of `mkdir(2)`: 0 and a new directory, or -1 and no change. The call
is recorded either way. -/
def sys_mkdir (h : Host) (path : CStr) : Host × Int :=
  let h1 := { h with mkdirCalls := h.mkdirCalls ++ [path] }
  match namei h.fs path with
  | none => (h1, -1)
  | some key =>
    match fsLookup h.fs key with
    | some _ => (h1, -1)
    | none => ({ h1 with fs := h.fs ++ [(key, Node.dir)] }, 0)

/-- Model of `fopen(3)` for the two access modes the source uses: `append`
is "a+" (create when absent), otherwise "r". Opening a directory fails (the
source never passes one with "r"). -/
def fopen (h : Host) (path : CStr) (append : Bool) : Host × Option Nat :=
  match namei h.fs path with
  | none => (h, none)
  | some key =>
    match fsLookup h.fs key with
    | some (Node.file _) =>
      if trailingSlash path then (h, none)
      else ({ h with files := (h.next, ⟨key, 0, append, []⟩) :: h.files, next := h.next + 1 },
            some h.next)
    | some _ => (h, none)
    | none =>
      if append && !trailingSlash path then
        ({ h with fs := h.fs ++ [(key, Node.file [])],
                  files := (h.next, ⟨key, 0, append, []⟩) :: h.files, next := h.next + 1 },
         some h.next)
      else (h, none)

/-- Model of `fflush(3)`. -/
def fflush (h : Host) (fp : Option Nat) : Option Host :=
  match fp with
  | none => none
  | some id => (h.file id).map (fun s => h.flush id s)

/-- Model of `fclose(3)`: the stream is flushed, then released. -/
def fclose (h : Host) (fp : Option Nat) : Option Host :=
  match fp with
  | none => none
  | some id =>
    match h.file id with
    | none => none
    | some s =>
      let h1 := h.flush id s
      some { h1 with files := h1.files.filter (fun e => e.1 != id) }

/-- Model of `fputc(3)`: the byte written, or EOF (-1). The byte goes to the
buffer of the stream. -/
def fputc (h : Host) (c : Int) (fp : Option Nat) : Option (Host × Int) :=
  match fp with
  | none => none
  | some id =>
    match h.file id with
    | none => none
    | some s =>
      if s.append then
        let b : Byte := Fin.ofNat (c % 256).toNat
        some (h.setFile id
                { s with buf := s.buf ++ [b],
                         pos := (h.data s.key).length + (s.buf ++ [b]).length },
              (b.val : Int))
      else some (h, -1)

/-- Model of `fwrite(3)` with item size 1: the number of bytes written. The
bytes go to the buffer of the stream. -/
def fwrite (h : Host) (buf : List Byte) (fp : Option Nat) : Option (Host × Nat) :=
  match fp with
  | none => none
  | some id =>
    match h.file id with
    | none => none
    | some s =>
      if s.append then
        if buf = [] then some (h, 0)
        else
          some (h.setFile id
                  { s with buf := s.buf ++ buf,
                           pos := (h.data s.key).length + (s.buf ++ buf).length },
                buf.length)
      else some (h, 0)

/-- Model of `fgetc(3)`: the next byte, or EOF (-1). Pending output of the
stream is flushed first. -/
def fgetc (h : Host) (fp : Option Nat) : Option (Host × Int) :=
  match fp with
  | none => none
  | some id =>
    match h.file id with
    | none => none
    | some s =>
      let h1 := h.flush id s
      match (h1.data s.key).get? s.pos with
      | some b => some (h1.setFile id { s with buf := [], pos := s.pos + 1 }, (b.val : Int))
      | none => some (h1, -1)

/-- Model of `fread(3)` with item size 1: the bytes read. Pending output of
the stream is flushed first. -/
def fread (h : Host) (nbyte : Nat) (fp : Option Nat) : Option (Host × List Byte) :=
  match fp with
  | none => none
  | some id =>
    match h.file id with
    | none => none
    | some s =>
      let h1 := h.flush id s
      let got := ((h1.data s.key).drop s.pos).take nbyte
      some (h1.setFile id { s with buf := [], pos := s.pos + got.length }, got)

/-- Model of `ftell(3)`. -/
def ftell (h : Host) (fp : Option Nat) : Option Int :=
  match fp with
  | none => none
  | some id => (h.file id).map (fun s => (s.pos : Int))

/-- The `whence` argument of `fseek`. -/
inductive Whence where
  | SEEK_SET
  | SEEK_END
deriving DecidableEq, Repr

/-- Model of `fseek(3)`: 0, or -1 when the target offset is negative. Pending
output of the stream is flushed first. -/
def fseek (h : Host) (fp : Option Nat) (off : Int) (w : Whence) : Option (Host × Int) :=
  match fp with
  | none => none
  | some id =>
    match h.file id with
    | none => none
    | some s =>
      let h1 := h.flush id s
      let base : Int := match w with
        | Whence.SEEK_SET => 0
        | Whence.SEEK_END => ((h1.data s.key).length : Int)
      if base + off < 0 then some (h1, -1)
      else some (h1.setFile id { s with buf := [], pos := (base + off).toNat }, 0)

/-- Names of the children of a directory, in creation order. -/
def fsChildren (fs : FileSys) (key : List CStr) : List CStr :=
  fs.filterMap (fun e => if e.1 ≠ [] ∧ e.1.dropLast = key then e.1.getLast? else none)

/-- Model of `opendir(3)`: the stream lists ".", ".." and then the children. -/
def opendir (h : Host) (path : CStr) : Host × Option Nat :=
  match namei h.fs path with
  | none => (h, none)
  | some key =>
    if fsIsDir h.fs key then
      ({ h with dirs := (h.next, ⟨['.'] :: ['.', '.'] :: fsChildren h.fs key, 0⟩) :: h.dirs,
                next := h.next + 1 },
       some h.next)
    else (h, none)

/-- Model of `readdir(3)`: the name of the next entry, `none` (a null
`struct dirent *`) when the stream is exhausted. -/
def readdir (h : Host) (dp : Option Nat) : Option (Host × Option CStr) :=
  match dp with
  | none => none
  | some id =>
    match h.dir id with
    | none => none
    | some s =>
      match s.entries.get? s.pos with
      | some name => some (h.setDir id { s with pos := s.pos + 1 }, some name)
      | none => some (h, none)

/-- Model of `rewinddir(3)`. -/
def rewinddir (h : Host) (dp : Option Nat) : Option Host :=
  match dp with
  | none => none
  | some id => (h.dir id).map (fun s => h.setDir id { s with pos := 0 })

/-- Model of `snprintf(buf, size, "%s", s)` for `size > 0`: the C string left
in the buffer. -/
def snprintf (size : Nat) (s : CStr) : CStr := s.take (size - 1)

/-- Model of POSIX `basename(3)` (the `libgen.h` one). -/
def basename (path : CStr) : CStr :=
  if path = [] then ['.']
  else
    let stripped := (path.reverse.dropWhile (fun c => c == '/')).reverse
    if stripped = [] then ['/']
    else (stripped.reverse.takeWhile (fun c => c != '/')).reverse

/-! ## The source: `SD.cpp` -/

/-- The two mode constants of `SD.h` that `SDClass::open` switches on; the
header is not part of the sources, so they are parameters. -/
structure Modes where
  FILE_READ : Nat
  FILE_WRITE : Nat
  /-- They are labels of one `switch`. -/
  distinct : FILE_READ ≠ FILE_WRITE

/-- Conversion of an `int` return code to `boolean`. -/
def toBoolean (r : Int) : Bool := decide (r ≠ 0)

/-- Conversion to `size_t` (32 bits). -/
def toSizeT (x : Int) : Nat := (x % 2 ^ 32).toNat

/-- The cast `(uint32_t)`. -/
def toUInt32 (x : Int) : Nat := (x % 2 ^ 32).toNat

/-- The cast `(int)` (32 bits, two's complement). -/
def toInt32 (x : Int) : Int := (x + 2 ^ 31) % 2 ^ 32 - 2 ^ 31

/-- Embedding of `SD_MOUNT_PATH`. -/
def SD_MOUNT_PATH : CStr := "/media/mmcblk0p1".toList

/-- The `while` loop of `check_sd` over the entries `getmntent` returns. -/
def check_sd_loop : List Mntent → Bool
  | [] => false
  | part :: rest =>
    match part.mnt_dir with
    | some d => if d = SD_MOUNT_PATH then true else check_sd_loop rest
    | none => check_sd_loop rest

/-- Embedding of `check_sd`. -/
def check_sd (h : Host) : Bool :=
  match h.mtab with
  | some entries => check_sd_loop entries
  | none => false

/-- Embedding of `sd_path`. -/
def sd_path (filepath : CStr) : CStr := SD_MOUNT_PATH ++ "/".toList ++ filepath

/-- Embedding of `cpp_basename`: the name is first copied into `char work[256]`. -/
def cpp_basename (fullname : CStr) : CStr := basename (snprintf 256 fullname)

/-- The data members of `File`. -/
structure File where
  _file : Option Nat
  _dirp : Option Nat
  _name : CStr
  _basename : CStr
deriving DecidableEq, Repr

/-- Embedding of `File::File(FILE *f_arg, char *n_arg)`. -/
def File.ofFILE (f_arg : Option Nat) (n_arg : CStr) : File :=
  { _file := f_arg, _dirp := none, _name := n_arg, _basename := cpp_basename n_arg }

/-- Embedding of `File::File(DIR *d_arg, char *n_arg)`. -/
def File.ofDIR (d_arg : Option Nat) (n_arg : CStr) : File :=
  { _file := none, _dirp := d_arg, _name := n_arg, _basename := cpp_basename n_arg }

/-- Embedding of `File::File(void)`. -/
def File.empty : File := { _file := none, _dirp := none, _name := [], _basename := [] }

/-- Embedding of `File::write(const uint8_t val)`. -/
def File.write_uint8 (h : Host) (f : File) (val : Nat) : Option (Host × Nat) :=
  (fputc h ((val % 256 : Nat) : Int) f._file).map (fun r => (r.1, toSizeT r.2))

/-- Embedding of `File::write(char c)`; `c` is a signed char. -/
def File.write_char (h : Host) (f : File) (c : Int) : Option (Host × Nat) :=
  (fputc h c f._file).map (fun r => (r.1, toSizeT r.2))

/-- Embedding of `File::write(const char *buf)`: `buf` is a C string, all of it
is written. -/
def File.write_cstr (h : Host) (f : File) (buf : List Byte) : Option (Host × Nat) :=
  fwrite h buf f._file

/-- Embedding of `File::write(const uint8_t *buf, size_t size)`. -/
def File.write_buf (h : Host) (f : File) (buf : List Byte) (size : Nat) : Option (Host × Nat) :=
  if size ≤ buf.length then fwrite h (buf.take size) f._file else none

/-- Embedding of `File::write(const char *buf, size_t size)`. -/
def File.write_chars (h : Host) (f : File) (buf : List Byte) (size : Nat) : Option (Host × Nat) :=
  if size ≤ buf.length then fwrite h (buf.take size) f._file else none

/-- Embedding of `File::read(void)`. -/
def File.read (h : Host) (f : File) : Option (Host × Int) := fgetc h f._file

/-- Embedding of `File::available`. -/
def File.available (h : Host) (f : File) : Option (Host × Int) :=
  match ftell h f._file with
  | none => none
  | some current =>
    match fseek h f._file 0 Whence.SEEK_END with
    | none => none
    | some (h1, _) =>
      match ftell h1 f._file with
      | none => none
      | some size =>
        match fseek h1 f._file current Whence.SEEK_SET with
        | none => none
        | some (h2, _) => some (h2, toInt32 (size - current))

/-- Embedding of `File::flush`. -/
def File.flush (h : Host) (f : File) : Option Host :=
  match f._file with
  | some fp => fflush h (some fp)
  | none => some h

/-- Embedding of `File::read(void *buf, uint16_t nbyte)`: the bytes stored in `buf`; their
number is the return value. -/
def File.read_buf (h : Host) (f : File) (nbyte : Nat) : Option (Host × List Byte) :=
  fread h (nbyte % 2 ^ 16) f._file

/-- Embedding of `File::seek`. -/
def File.seek (h : Host) (f : File) (pos : Nat) : Option (Host × Bool) :=
  (fseek h f._file ((pos % 2 ^ 32 : Nat) : Int) Whence.SEEK_SET).map
    (fun r => (r.1, decide (r.2 = 0)))

/-- Embedding of `File::position`. -/
def File.position (h : Host) (f : File) : Option Nat :=
  (ftell h f._file).map toUInt32

/-- Embedding of `File::size`. -/
def File.size (h : Host) (f : File) : Option (Host × Nat) :=
  match ftell h f._file with
  | none => none
  | some current =>
    match fseek h f._file 0 Whence.SEEK_END with
    | none => none
    | some (h1, _) =>
      match ftell h1 f._file with
      | none => none
      | some size =>
        match fseek h1 f._file current Whence.SEEK_SET with
        | none => none
        | some (h2, _) => some (h2, toUInt32 size)

/-- Embedding of `File::check_exists`: the test is `!this`, and `this` is never null. -/
def File.check_exists (_f : File) : Bool := true

/-- Embedding of `File::close`. -/
def File.close (h : Host) (f : File) : Option (Host × File) :=
  if !f.check_exists then some (h, f)
  else
    match f._file with
    | some fp =>
      (fclose h (some fp)).map (fun h1 => (h1, { f with _file := none, _dirp := none }))
    | none => some (h, { f with _file := none, _dirp := none })

/-- Embedding of `File::name`. -/
def File.name (f : File) : CStr := f._basename

/-- Embedding of `File::isDirectory`. -/
def File.isDirectory (f : File) : Bool :=
  if f._file = none ∧ f._dirp ≠ none then true
  else if f._file ≠ none ∧ f._dirp = none then false
  else false

/-- Embedding of `File::operator bool`. -/
def File.operator_bool (f : File) : Bool := decide (none ≠ f._file ∨ none ≠ f._dirp)

/-- Embedding of `SDClass::begin`. -/
def SDClass.begin (h : Host) (_csPin : Nat) : Bool := check_sd h

/-- Embedding of `SDClass::exists`. -/
def SDClass.exists (h : Host) (filepath : CStr) : Bool :=
  (sys_stat h.fs (sd_path filepath)).isSome

/-- Embedding of `SDClass::open`; `mode` is a `uint8_t`. The access mode "a+" is `true`,
"r" is `false`. -/
def SDClass.open (m : Modes) (h : Host) (filepath : CStr) (mode : Nat) : Host × File :=
  if mode = m.FILE_READ ∨ mode = m.FILE_WRITE then
    let access_mode : Bool := if mode = m.FILE_READ then false else true
    let abs_path := sd_path filepath
    if !SDClass.exists h filepath then
      let r := fopen h abs_path access_mode
      (r.1, File.ofFILE r.2 filepath)
    else
      match sys_stat h.fs abs_path with
      | none => (h, File.empty)
      | some Node.dir =>
        let r := opendir h abs_path
        (r.1, File.ofDIR r.2 filepath)
      | some (Node.file _) =>
        let r := fopen h abs_path access_mode
        (r.1, File.ofFILE r.2 filepath)
      | some Node.special => (h, File.empty)
  else (h, File.empty)

/-- Embedding of `File::openNextFile`. A null `dp` is dereferenced by the second `strcmp`
and by `snprintf`. -/
def File.openNextFile (m : Modes) (h : Host) (f : File) (mode : Nat) : Option (Host × File) :=
  match readdir h f._dirp with
  | none => none
  | some (h1, none) => some (h1, File.empty)
  | some (h1, some d0) =>
    match (if d0 = ['.'] then readdir h1 f._dirp else some (h1, some d0)) with
    | none => none
    | some (_, none) => none
    | some (h2, some d1) =>
      match (if d1 = ['.', '.'] then readdir h2 f._dirp else some (h2, some d1)) with
      | none => none
      | some (_, none) => none
      | some (h3, some d2) =>
        let nextfile := snprintf 256 (f._name ++ "/".toList ++ d2)
        some (SDClass.open m h3 nextfile mode)

/-- Embedding of `File::rewindDirectory`. -/
def File.rewindDirectory (h : Host) (f : File) : Option Host := rewinddir h f._dirp

/-- The `for` loop of `SDClass::mkdir`: `pre` is the part of `tmp` before `p`,
the second list is `tmp` from `p` on, NUL included. -/
def mkdirLoop : Host → List Char → List Char → Host
  | h, _, [] => h
  | h, pre, c :: rest =>
    if c = '\x00' then h
    else if c = '/' then
      mkdirLoop (sys_mkdir h (sd_path ((pre ++ '\x00' :: rest).takeWhile (fun x => x != '\x00')))).1
        (pre ++ [c]) rest
    else mkdirLoop h (pre ++ [c]) rest

/-- Embedding of `SDClass::mkdir`. `tmp` is the buffer up to the terminator that
`snprintf` wrote; for an empty path `tmp[len - 1]` lies outside `tmp`. -/
def SDClass.mkdir (h : Host) (filepath : CStr) : Option (Host × Bool) :=
  let s := snprintf 256 filepath
  let len := s.length
  if len = 0 then none
  else
    let tmp := if s.getLast? = some '/' then s.dropLast ++ ['\x00', '\x00'] else s ++ ['\x00']
    let h1 := mkdirLoop h (tmp.take 1) (tmp.drop 1)
    let r := sys_mkdir h1 (sd_path (tmp.takeWhile (fun x => x != '\x00')))
    some (r.1, toBoolean r.2)

/-! ## Callers and vocabulary of the statements -/

/-- The caller's loop `while ((c = f.read()) != -1)`: the values read before
the end marker. `fuel` bounds the number of `read()` calls; `none` when it runs
out or a call faults. -/
def readUntilEnd : Nat → Host → File → Option (Host × List Int)
  | 0, _, _ => none
  | fuel + 1, h, f =>
    match File.read h f with
    | none => none
    | some (h1, c) =>
      if c = -1 then some (h1, [])
      else (readUntilEnd fuel h1 f).map (fun r => (r.1, c :: r.2))

/-- The round-trip session: `open(P, FILE_WRITE)`, `write(B, |B|)`, `close()`,
`open(P, FILE_READ)`, read until the end marker. Result: the count returned by
`write` and the values read. -/
def writeCloseReopenRead (m : Modes) (h : Host) (P : CStr) (B : List Byte) (fuel : Nat) :
    Option (Nat × List Int) :=
  let o1 := SDClass.open m h P m.FILE_WRITE
  match File.write_buf o1.1 o1.2 B B.length with
  | none => none
  | some (h2, n) =>
    match File.close h2 o1.2 with
    | none => none
    | some (h3, _) =>
      let o2 := SDClass.open m h3 P m.FILE_READ
      (readUntilEnd fuel o2.1 o2.2).map (fun r => (n, r.2))

/-- The text `/c1/c2.../cn`. -/
def joinTail : List CStr → CStr
  | [] => []
  | c :: cs => '/' :: c ++ joinTail cs

/-- The relative path `c1/c2/.../cn` with components `c1`, ..., `cn`. -/
def joinPath : List CStr → CStr
  | [] => []
  | c :: cs => c ++ joinTail cs

/-- A path component that names an entry: not empty, without `/` or NUL, and
neither `.` nor `..`. -/
def PlainName (c : CStr) : Prop :=
  c ≠ [] ∧ '/' ∉ c ∧ '\x00' ∉ c ∧ c ≠ ['.'] ∧ c ≠ ['.', '.']

instance decPlainName (c : CStr) : Decidable (PlainName c) := by
  unfold PlainName; infer_instance

/-! ## Sample hosts -/

/-- Sample values for the constants of `SD.h`. -/
def sampleModes : Modes := { FILE_READ := 0, FILE_WRITE := 1, distinct := by decide }

/-- The canonical path of the mount directory. -/
def mountKey : List CStr := ["media".toList, "mmcblk0p1".toList]

/-- A host with the card mounted and nothing on it. -/
def emptyCard : Host :=
  { fs := [(["media".toList], Node.dir), (mountKey, Node.dir)],
    files := [], dirs := [], next := 1,
    mtab := some [⟨some "/".toList⟩, ⟨some SD_MOUNT_PATH⟩],
    mkdirCalls := [] }

/-- The mount directory exists. -/
def Mounted (h : Host) : Prop :=
  fsIsDir h.fs ["media".toList] = true ∧ fsIsDir h.fs mountKey = true

instance decMounted (h : Host) : Decidable (Mounted h) := by
  unfold Mounted; infer_instance

/-- The `mkdir(2)` calls that remain once the loop of `SDClass::mkdir` has
`pre` before `p` and the components `cs` ahead: one for `pre` at each `/`, and
the last one after the loop. -/
def mkdirAll : Host → CStr → List CStr → Host × Int
  | h, pre, [] => sys_mkdir h (sd_path pre)
  | h, pre, c :: cs => mkdirAll (sys_mkdir h (sd_path pre)).1 (pre ++ '/' :: c) cs

/-- A card with one directory `d`. -/
def cardWithDir : Host := (sys_mkdir emptyCard (sd_path "d".toList)).1

/-- The empty card after `SD.open("x", FILE_WRITE)`: the host and the handle. -/
def openedX : Host × File :=
  SDClass.open sampleModes emptyCard "x".toList sampleModes.FILE_WRITE

/-- The card with the empty directory `d` after `SD.open("d", FILE_READ)`. -/
def openedD : Host × File :=
  SDClass.open sampleModes cardWithDir "d".toList sampleModes.FILE_READ

/-- A card holding one file `big` of `n` zero bytes, open for reading at
offset 0 as stream 1. -/
def bigCard (n : Nat) : Host :=
  { fs := [(["media".toList], Node.dir), (mountKey, Node.dir),
           (mountKey ++ ["big".toList], Node.file (List.replicate n 0))],
    files := [(1, ⟨mountKey ++ ["big".toList], 0, false, []⟩)], dirs := [], next := 2,
    mtab := some [⟨some SD_MOUNT_PATH⟩], mkdirCalls := [] }

/-- The card after `SD.mkdir("a/b/c")`. -/
def cardABC : Host :=
  match SDClass.mkdir emptyCard "a/b/c".toList with
  | some r => r.1
  | none => emptyCard

/-! # Theorems -/

/-! ## Mount check -/

theorem check_sd_loop_iff (entries : List Mntent) :
    check_sd_loop entries = true ↔ ∃ e ∈ entries, e.mnt_dir = some SD_MOUNT_PATH := by
  induction entries with
  | nil => simp [check_sd_loop]
  | cons part rest ih =>
    unfold check_sd_loop
    cases hd : part.mnt_dir with
    | none => simp [ih, hd]
    | some d =>
      by_cases hq : d = SD_MOUNT_PATH
      · simp [hq, hd]
      · simp [hq, hd, ih]

/-- C9: `SDClass::begin(csPin)` is true exactly when the mount table can be
read and has an entry whose mount directory equals `SD_MOUNT_PATH`; it is false
when the table cannot be read; and `csPin` plays no part. -/
theorem begin_iff_mount_entry (h : Host) (csPin : Nat) :
    (SDClass.begin h csPin = true ↔
      ∃ entries, h.mtab = some entries ∧ ∃ e ∈ entries, e.mnt_dir = some SD_MOUNT_PATH) ∧
    (h.mtab = none → SDClass.begin h csPin = false) ∧
    (∀ csPin2 : Nat, SDClass.begin h csPin2 = SDClass.begin h csPin) := by
  refine ⟨?_, ?_, fun _ => rfl⟩
  · unfold SDClass.begin check_sd
    cases hm : h.mtab with
    | none => simp
    | some entries => simp [check_sd_loop_iff]
  · intro hm
    simp [SDClass.begin, check_sd, hm]

/-! ## Base names -/

theorem takeWhile_append_stop {α : Type} (p : α → Bool) (l r : List α)
    (hl : ∀ x ∈ l, p x = true) (hr : r.head?.all (fun x => !p x) = true) :
    (l ++ r).takeWhile p = l := by
  induction l with
  | nil =>
    cases r with
    | nil => rfl
    | cons a r => simp at hr; simp [List.takeWhile, hr]
  | cons a l ih =>
    have ha : p a = true := hl a (by simp)
    simp [List.takeWhile, ha]
    exact ih (fun x hx => hl x (by simp [hx]))

theorem basename_component (pre c : CStr) (hc : c ≠ []) (hs : '/' ∉ c)
    (hpre : pre = [] ∨ pre.getLast? = some '/') :
    basename (pre ++ c) = c ∧ basename (pre ++ c ++ ['/']) = c := by
  have hrev : c.reverse ≠ [] := by simpa using hc
  obtain ⟨x, xs, hx⟩ := List.exists_cons_of_ne_nil hrev
  have hxc : x ∈ c := by
    have : x ∈ c.reverse := by rw [hx]; simp
    simpa using this
  have hxs : x ≠ '/' := fun h => hs (h ▸ hxc)
  have htw : (c.reverse ++ pre.reverse).takeWhile (fun ch => ch != '/') = c.reverse := by
    apply takeWhile_append_stop
    · intro y hy
      have : y ∈ c := by simpa using hy
      have : y ≠ '/' := fun h => hs (h ▸ this)
      simpa using this
    · rcases hpre with h | h
      · simp [h]
      · rw [List.head?_reverse, h]; simp
  have hdw : (c.reverse ++ pre.reverse).dropWhile (fun ch => ch == '/') =
      c.reverse ++ pre.reverse := by
    rw [hx]
    have hb : (x == '/') = false := by simpa using hxs
    simp [List.dropWhile, hb]
  constructor
  · unfold basename
    have h1 : pre ++ c ≠ [] := by simp [hc]
    simp only [h1, if_false, List.reverse_append, hdw, List.reverse_reverse]
    simp only [← List.reverse_append, List.reverse_reverse, h1, if_false]
    simp only [List.reverse_append, htw, List.reverse_reverse]
  · unfold basename
    have h1 : pre ++ c ≠ [] := by simp [hc]
    have h2 : pre ++ c ++ ['/'] ≠ [] := by simp
    have hd2 : (pre ++ c ++ ['/']).reverse.dropWhile (fun ch => ch == '/') =
        c.reverse ++ pre.reverse := by
      simp only [List.reverse_append, List.reverse_cons, List.reverse_nil, List.nil_append,
        List.singleton_append]
      rw [List.dropWhile_cons]
      simp only [beq_self_eq_true, if_true]
      exact hdw
    simp only [h2, if_false, hd2]
    simp only [← List.reverse_append, List.reverse_reverse, h1, if_false]
    simp only [List.reverse_append, htw, List.reverse_reverse]

/-- C10 (as stated, refuted): for a 259-byte path whose last component is
`file.txt`, `name()` is `file`: only the first 255 bytes reach `basename`. -/
theorem name_long_path_truncated :
    (File.ofFILE (some 1) (List.replicate 250 'd' ++ "/file.txt".toList)).name = "file".toList ∧
    (File.ofFILE (some 1) (List.replicate 250 'd' ++ "/file.txt".toList)).name
      ≠ "file.txt".toList := by
  decide

/-- C10 (amended): for a path shorter than 256 bytes that ends in a component
`c` (after the last `/`, one trailing `/` allowed), `name()` of a file handle
and of a directory handle constructed with the path is `c`. -/
theorem name_final_component (fp dp : Option Nat) (pre c t P : CStr)
    (hc : c ≠ []) (hs : '/' ∉ c) (hpre : pre = [] ∨ pre.getLast? = some '/')
    (ht : t = [] ∨ t = ['/']) (hP : P = pre ++ c ++ t) (hlen : P.length < 256) :
    (File.ofFILE fp P).name = c ∧ (File.ofDIR dp P).name = c := by
  have hsn : snprintf 256 P = P := by
    unfold snprintf
    exact List.take_of_length_le (by omega)
  have hb : basename P = c := by
    rcases ht with h | h
    · subst h; rw [hP, List.append_nil]; exact (basename_component pre c hc hs hpre).1
    · subst h; rw [hP]; exact (basename_component pre c hc hs hpre).2
  simp [File.name, File.ofFILE, File.ofDIR, cpp_basename, hsn, hb]

theorem name_final_component_witness :
    (File.ofFILE (some 1) "a/b/file.txt".toList).name = "file.txt".toList ∧
    (File.ofDIR (some 2) "a/b/file.txt".toList).name = "file.txt".toList :=
  name_final_component (some 1) (some 2) "a/b/".toList "file.txt".toList [] "a/b/file.txt".toList
    (by decide) (by decide) (by decide) (by decide) (by decide) (by decide)

/-! ## Facts about the host model -/

theorem fsLookup_append (fs : FileSys) (key : List CStr) (n : Node) (k : List CStr) :
    fsLookup (fs ++ [(key, n)]) k =
      match fsLookup fs k with
      | some x => some x
      | none => if k = key then some n else none := by
  unfold fsLookup
  by_cases hk : k = []
  · simp [hk]
  · simp only [hk, if_false, List.find?_append]
    cases hf : fs.find? (fun e => decide (e.1 = k)) with
    | some e => simp
    | none =>
      by_cases hkk : k = key
      · simp [hkk]
      · have : ¬ key = k := fun h => hkk h.symm
        simp [hkk, this]

theorem fsIsDir_append (fs : FileSys) (key : List CStr) (n : Node) (k : List CStr)
    (h : fsIsDir fs k = true) : fsIsDir (fs ++ [(key, n)]) k = true := by
  unfold fsIsDir at *
  have h1 : fsLookup fs k = some Node.dir := by simpa using h
  simp [fsLookup_append, h1]

theorem walk_mono (fs fs2 : FileSys)
    (hm : ∀ k, fsIsDir fs k = true → fsIsDir fs2 k = true) :
    ∀ (cs : List CStr) (cur k : List CStr), walk fs cur cs = some k → walk fs2 cur cs = some k := by
  intro cs
  induction cs with
  | nil => intro cur k h; simpa [walk] using h
  | cons c cs ih =>
    intro cur k h
    unfold walk at h ⊢
    by_cases hd : fsIsDir fs cur = true
    · rw [if_pos hd] at h
      rw [if_pos (hm cur hd)]
      exact ih _ _ h
    · rw [if_neg hd] at h
      exact absurd h (by simp)

theorem namei_mono (fs fs2 : FileSys)
    (hm : ∀ k, fsIsDir fs k = true → fsIsDir fs2 k = true) (path : CStr) (k : List CStr)
    (h : namei fs path = some k) : namei fs2 path = some k := by
  unfold namei at *
  by_cases hp : path = []
  · simp [hp] at h
  · rw [if_neg hp] at h ⊢
    exact walk_mono fs fs2 hm _ _ _ h

theorem sys_stat_dir (fs : FileSys) (path : CStr) (h : sys_stat fs path = some Node.dir) :
    ∃ key, namei fs path = some key ∧ fsIsDir fs key = true := by
  unfold sys_stat at h
  cases hn : namei fs path with
  | none => simp [hn] at h
  | some key =>
    refine ⟨key, rfl, ?_⟩
    simp only [hn] at h
    cases hl : fsLookup fs key with
    | none => simp [hl] at h
    | some n =>
      cases n with
      | dir => simp [fsIsDir, hl]
      | file d =>
        simp only [hl] at h
        split at h <;> simp at h
      | special =>
        simp only [hl] at h
        split at h <;> simp at h

theorem sys_stat_none_lookup (fs : FileSys) (path : CStr) (key : List CStr)
    (hs : sys_stat fs path = none) (hk : namei fs path = some key)
    (ht : trailingSlash path = false) : fsLookup fs key = none := by
  unfold sys_stat at hs
  simp only [hk] at hs
  cases hl : fsLookup fs key with
  | none => rfl
  | some n =>
    cases n <;> simp [hl, ht] at hs

theorem find_fsSetData (fs : FileSys) (key : List CStr) (d : List Byte) (k : List CStr) :
    (fsSetData fs key d).find? (fun e => decide (e.1 = k)) =
      (fs.find? (fun e => decide (e.1 = k))).map
        (fun e => if e.1 = key then (e.1, Node.file d) else e) := by
  unfold fsSetData
  induction fs with
  | nil => rfl
  | cons e fs ih =>
    obtain ⟨ek, en⟩ := e
    by_cases hk : ek = k
    · subst hk
      by_cases he : ek = key
      · subst he
        simp [List.find?]
      · simp [List.find?, he]
    · by_cases he : ek = key
      · subst he
        simp only [List.map_cons, if_true, List.find?, hk, decide_False]
        exact ih
      · simp only [List.map_cons, if_neg he, List.find?, hk, decide_False]
        exact ih

theorem fsLookup_setData_self (fs : FileSys) (key : List CStr) (d0 d : List Byte)
    (h : fsLookup fs key = some (Node.file d0)) :
    fsLookup (fsSetData fs key d) key = some (Node.file d) := by
  unfold fsLookup at *
  by_cases hk : key = []
  · simp [hk] at h
  · simp only [hk, if_false, find_fsSetData] at h ⊢
    cases hf : fs.find? (fun e => decide (e.1 = key)) with
    | none => simp [hf] at h
    | some e =>
      have he : e.1 = key := by
        have := List.find?_some hf
        simpa using this
      simp [he]

theorem fsLookup_setData_other (fs : FileSys) (key : List CStr) (d : List Byte)
    (k : List CStr) (hne : k ≠ key) :
    fsLookup (fsSetData fs key d) k = fsLookup fs k := by
  unfold fsLookup
  by_cases hk : k = []
  · simp [hk]
  · simp only [hk, if_false, find_fsSetData]
    cases hf : fs.find? (fun e => decide (e.1 = k)) with
    | none => rfl
    | some e =>
      have he : e.1 = k := by
        have := List.find?_some hf
        simpa using this
      have : ¬ e.1 = key := fun h => hne (he ▸ h)
      simp [this]

theorem fsIsDir_setData (fs : FileSys) (key : List CStr) (d0 d : List Byte)
    (h : fsLookup fs key = some (Node.file d0)) (k : List CStr)
    (hd : fsIsDir fs k = true) : fsIsDir (fsSetData fs key d) k = true := by
  by_cases hk : k = key
  · subst hk
    simp [fsIsDir, h] at hd
  · unfold fsIsDir at *
    rw [fsLookup_setData_other _ _ _ _ hk]
    exact hd

/-! ## Opening paths -/

/-- C3 (as stated, refuted): `d` exists and is a directory, yet opening it
with the mode 200, which is neither `FILE_READ` nor `FILE_WRITE`, gives the empty
handle, for which `isDirectory()` is false. -/
theorem open_dir_invalid_mode :
    SDClass.exists cardWithDir "d".toList = true ∧
    sys_stat cardWithDir.fs (sd_path "d".toList) = some Node.dir ∧
    SDClass.open sampleModes cardWithDir "d".toList 200 = (cardWithDir, File.empty) ∧
    (SDClass.open sampleModes cardWithDir "d".toList 200).2.isDirectory = false := by
  decide

/-- C3 (amended): when `exists(P)` holds and the resolved path is a directory,
`SDClass::open(P, mode)` with `mode` one of `FILE_READ`, `FILE_WRITE` returns a
handle for which `isDirectory()` is true. -/
theorem open_dir_isDirectory (m : Modes) (h : Host) (P : CStr) (mode : Nat)
    (hmode : mode = m.FILE_READ ∨ mode = m.FILE_WRITE)
    (hex : SDClass.exists h P = true)
    (hdir : sys_stat h.fs (sd_path P) = some Node.dir) :
    (SDClass.open m h P mode).2.isDirectory = true := by
  obtain ⟨key, hk, hd⟩ := sys_stat_dir _ _ hdir
  unfold SDClass.open
  rw [if_pos hmode]
  simp only [hex, Bool.not_true, hdir]
  simp [opendir, hk, hd, File.ofDIR, File.isDirectory]

theorem open_dir_isDirectory_witness :
    (SDClass.open sampleModes cardWithDir "d".toList sampleModes.FILE_READ).2.isDirectory
      = true :=
  open_dir_isDirectory sampleModes cardWithDir "d".toList sampleModes.FILE_READ
    (by decide) (by decide) (by decide)

/-- C1 (code at the failing input): on a mounted empty card `x` does not
exist; `SD.open("x", FILE_READ)` hands "r" to `fopen`, so nothing is created
(the host is unchanged, `x` still does not exist) and the handle wraps a null
stream, is-open false. The same call with `FILE_WRITE` creates the file and
returns an open file handle. -/
theorem open_read_absent_creates_nothing :
    SDClass.exists emptyCard "x".toList = false ∧
    SDClass.open sampleModes emptyCard "x".toList sampleModes.FILE_READ
      = (emptyCard, File.ofFILE none "x".toList) ∧
    (SDClass.open sampleModes emptyCard "x".toList sampleModes.FILE_READ).2.operator_bool
      = false ∧
    SDClass.exists (SDClass.open sampleModes emptyCard "x".toList sampleModes.FILE_READ).1
      "x".toList = false ∧
    (SDClass.open sampleModes emptyCard "x".toList sampleModes.FILE_WRITE).2.operator_bool
      = true ∧
    (SDClass.open sampleModes emptyCard "x".toList sampleModes.FILE_WRITE).2.isDirectory
      = false ∧
    SDClass.exists (SDClass.open sampleModes emptyCard "x".toList sampleModes.FILE_WRITE).1
      "x".toList = true := by
  decide

theorem open_write_absent (m : Modes) (h : Host) (P : CStr) (key : List CStr)
    (hex : SDClass.exists h P = false)
    (hk : namei h.fs (sd_path P) = some key)
    (ht : trailingSlash (sd_path P) = false) :
    fsLookup h.fs key = none ∧
    SDClass.open m h P m.FILE_WRITE =
      ({ h with fs := h.fs ++ [(key, Node.file [])],
                files := (h.next, ⟨key, 0, true, []⟩) :: h.files, next := h.next + 1 },
       File.ofFILE (some h.next) P) := by
  have hst : sys_stat h.fs (sd_path P) = none := by
    simpa [SDClass.exists] using hex
  have hl : fsLookup h.fs key = none := sys_stat_none_lookup _ _ _ hst hk ht
  have hne : m.FILE_WRITE ≠ m.FILE_READ := fun e => m.distinct e.symm
  refine ⟨hl, ?_⟩
  unfold SDClass.open
  simp [hex, hne, fopen, hk, hl, ht]

theorem open_read_file (m : Modes) (h : Host) (P : CStr) (key : List CStr) (d : List Byte)
    (hk : namei h.fs (sd_path P) = some key)
    (hl : fsLookup h.fs key = some (Node.file d))
    (ht : trailingSlash (sd_path P) = false) :
    SDClass.open m h P m.FILE_READ =
      ({ h with files := (h.next, ⟨key, 0, false, []⟩) :: h.files, next := h.next + 1 },
       File.ofFILE (some h.next) P) := by
  have hst : sys_stat h.fs (sd_path P) = some (Node.file d) := by
    simp [sys_stat, hk, hl, ht]
  unfold SDClass.open
  simp [SDClass.exists, hst, fopen, hk, hl, ht]

/-! ## Single-byte writes, directory iteration, closing -/

/-- C4 (code at the failing input): on a freshly opened file, `write((uint8_t)65)`
and `write((char)65)` append the byte 65 (the file holds it once the handle is
closed) and return 65, not 1; writing the byte 0 returns 0; the buffer overload
returns the count 1 for the same byte. -/
theorem write_single_byte_returns_byte :
    (File.write_uint8 openedX.1 openedX.2 65).map Prod.snd = some 65 ∧
    ((File.write_uint8 openedX.1 openedX.2 65).bind
      (fun r => File.close r.1 openedX.2)).map
      (fun r => r.1.data (mountKey ++ ["x".toList])) = some [65] ∧
    (File.write_char openedX.1 openedX.2 65).map Prod.snd = some 65 ∧
    (File.write_uint8 openedX.1 openedX.2 0).map Prod.snd = some 0 ∧
    (File.write_buf openedX.1 openedX.2 [65] 1).map Prod.snd = some 1 := by
  decide

/-- C5 (code at the failing input): the handle of the empty directory `d` is
a directory handle whose stream holds `.` and `..`; `openNextFile` skips both,
the third `readdir` returns null, and the null entry is dereferenced. The same
happens when `.` alone is left. -/
theorem openNextFile_empty_dir_faults :
    openedD.2.isDirectory = true ∧
    (openedD.2._dirp.bind openedD.1.dir) = some ⟨[['.'], ['.', '.']], 0⟩ ∧
    File.openNextFile sampleModes openedD.1 openedD.2 sampleModes.FILE_READ = none ∧
    File.openNextFile sampleModes
      { openedD.1 with dirs := [(2, ⟨[['.']], 0⟩)] } (File.ofDIR (some 2) "d".toList)
      sampleModes.FILE_READ = none := by
  decide

/-- C6 (code at the failing input): `close()` on the directory handle of `d`
empties the handle but leaves its directory stream open in the host: no
`closedir` is issued. -/
theorem close_dir_handle_leaks_stream :
    openedD.2._dirp = some 1 ∧
    openedD.1.dir 1 = some ⟨[['.'], ['.', '.']], 0⟩ ∧
    (File.close openedD.1 openedD.2).map (fun r => r.2.operator_bool) = some false ∧
    (File.close openedD.1 openedD.2).map (fun r => r.1.dir 1)
      = some (some ⟨[['.'], ['.', '.']], 0⟩) ∧
    (File.close openedD.1 openedD.2).map Prod.fst = some openedD.1 := by
  decide

/-! ## Sizes and positions -/

theorem setFile_file (h : Host) (id : Nat) (s0 s : FStream) (hs : h.file id = some s0) :
    (h.setFile id s).file id = some s := by
  unfold Host.file Host.setFile at *
  simp only
  generalize h.files = l at hs
  induction l with
  | nil => simp at hs
  | cons e l ih =>
    by_cases he : e.1 = id
    · simp [List.find?, he]
    · have hb : (e.1 == id) = false := by simpa using he
      simp only [List.map_cons, if_neg he, List.find?, hb] at hs ⊢
      exact ih hs

theorem setFile_data (h : Host) (id : Nat) (s : FStream) (key : List CStr) :
    (h.setFile id s).data key = h.data key := rfl

theorem flush_file (h : Host) (id : Nat) (s0 s : FStream) (hs : h.file id = some s0) :
    (h.flush id s).file id = some { s with buf := [] } := by
  unfold Host.flush
  split
  · exact setFile_file { h with fs := _ } id s0 _ hs
  · exact setFile_file h id s0 _ hs

theorem flush_lookup_file (h : Host) (id : Nat) (s : FStream) (d : List Byte)
    (hd : fsLookup h.fs s.key = some (Node.file d)) :
    fsLookup (h.flush id s).fs s.key = some (Node.file (d ++ s.buf)) := by
  unfold Host.flush
  rw [hd]
  exact fsLookup_setData_self _ _ _ _ hd

theorem flush_data_file (h : Host) (id : Nat) (s : FStream) (d : List Byte)
    (hd : fsLookup h.fs s.key = some (Node.file d)) :
    (h.flush id s).data s.key = d ++ s.buf := by
  simp [Host.data, flush_lookup_file h id s d hd]

theorem size_eq (h : Host) (f : File) (id : Nat) (s : FStream) (d : List Byte)
    (hf : f._file = some id) (hs : h.file id = some s)
    (hd : fsLookup h.fs s.key = some (Node.file d)) :
    ∃ h2, File.size h f = some (h2, toUInt32 ((d ++ s.buf).length : Int)) ∧
      File.available h f
        = some (h2, toInt32 (((d ++ s.buf).length : Int) - (s.pos : Int))) ∧
      h2.file id = some { s with buf := [] } := by
  have h1 := flush_file h id s s hs
  have hdat := flush_data_file h id s d hd
  have h2 := setFile_file (h.flush id s) id _
    ⟨s.key, (d ++ s.buf).length, s.append, []⟩ h1
  have h3 := flush_file _ id _ ⟨s.key, (d ++ s.buf).length, s.append, []⟩ h2
  have h4 := setFile_file _ id _ ⟨s.key, s.pos, s.append, []⟩ h3
  have hneg : ¬ (((d ++ s.buf).length : Int) < 0) := by omega
  have hneg2 : ¬ ((s.pos : Int) < 0) := by omega
  refine ⟨_, ?_, ?_, h4⟩
  · simp only [File.size, hf, ftell, hs, fseek, hdat, Option.map_some', Int.add_zero,
      Int.zero_add, hneg, hneg2, if_false, Int.toNat_ofNat, h2]
  · simp only [File.available, hf, ftell, hs, fseek, hdat, Option.map_some', Int.add_zero,
      Int.zero_add, hneg, hneg2, if_false, Int.toNat_ofNat, h2]

theorem position_of_file (h : Host) (f : File) (id : Nat) (s : FStream)
    (hf : f._file = some id) (hs : h.file id = some s) :
    File.position h f = some (toUInt32 (s.pos : Int)) := by
  simp [File.position, ftell, hf, hs]

theorem bigCard_lookup (n : Nat) :
    fsLookup (bigCard n).fs (mountKey ++ ["big".toList])
      = some (Node.file (List.replicate n 0)) := rfl

/-- C8 (as stated, refuted): on a file of 2^32 bytes at offset 0, `size()`
returns 0; on a file of 2^31 bytes at offset 0, `available()` returns -2^31. -/
theorem size_available_wrap :
    (File.size (bigCard (2 ^ 32)) (File.ofFILE (some 1) "big".toList)).map Prod.snd
      = some 0 ∧
    (File.available (bigCard (2 ^ 31)) (File.ofFILE (some 1) "big".toList)).map Prod.snd
      = some (-2147483648) := by
  constructor
  · obtain ⟨h2, hsz, _, _⟩ := size_eq (bigCard (2 ^ 32)) (File.ofFILE (some 1) "big".toList) 1
      ⟨mountKey ++ ["big".toList], 0, false, []⟩ _ rfl rfl (bigCard_lookup _)
    rw [hsz]
    simp only [Option.map_some', List.append_nil, List.length_replicate]
    decide
  · obtain ⟨h2, _, hav, _⟩ := size_eq (bigCard (2 ^ 31)) (File.ofFILE (some 1) "big".toList) 1
      ⟨mountKey ++ ["big".toList], 0, false, []⟩ _ rfl rfl (bigCard_lookup _)
    rw [hav]
    simp only [Option.map_some', List.append_nil, List.length_replicate]
    decide

/-- C8 (amended): for an open file handle on a file of length `n < 2^32` at
offset `p ≤ n`, `size()` returns `n` and `position()` is still `p` afterwards;
when moreover `n - p < 2^31`, `available()` returns `n - p` and `position()` is
still `p` afterwards. The length `n` is that of the file together with the
bytes the stream still holds in its buffer (none for a stream that has not
written since it was opened or flushed). -/
theorem size_available_position (h : Host) (f : File) (id : Nat) (s : FStream)
    (data : List Byte)
    (hf : f._file = some id) (hs : h.file id = some s)
    (hd : fsLookup h.fs s.key = some (Node.file data))
    (hp : s.pos ≤ data.length + s.buf.length) (hn : data.length + s.buf.length < 2 ^ 32) :
    (∃ h2, File.size h f = some (h2, data.length + s.buf.length) ∧
      File.position h2 f = some s.pos) ∧
    (data.length + s.buf.length - s.pos < 2 ^ 31 →
      ∃ h2, File.available h f
          = some (h2, ((data.length + s.buf.length - s.pos : Nat) : Int)) ∧
        File.position h2 f = some s.pos) := by
  obtain ⟨h2, hsz, hav, hfile⟩ := size_eq h f id s data hf hs hd
  rw [List.length_append] at hsz hav
  have hpos : File.position h2 f = some s.pos := by
    rw [position_of_file h2 f id _ hf hfile]
    simp only [toUInt32]
    have : (s.pos : Int) % 2 ^ 32 = (s.pos : Int) := Int.emod_eq_of_lt (by omega) (by omega)
    rw [this]; simp
  constructor
  · refine ⟨h2, ?_, hpos⟩
    rw [hsz]
    have : toUInt32 ((data.length + s.buf.length : Nat) : Int) = data.length + s.buf.length := by
      unfold toUInt32
      have : ((data.length + s.buf.length : Nat) : Int) % 2 ^ 32
          = ((data.length + s.buf.length : Nat) : Int) :=
        Int.emod_eq_of_lt (by omega) (by omega)
      rw [this]; exact Int.toNat_ofNat _
    rw [this]
  · intro hlt
    refine ⟨h2, ?_, hpos⟩
    rw [hav]
    have : toInt32 (((data.length + s.buf.length : Nat) : Int) - (s.pos : Int))
        = ((data.length + s.buf.length - s.pos : Nat) : Int) := by
      unfold toInt32
      have e : (((data.length + s.buf.length : Nat) : Int) - (s.pos : Int) + 2 ^ 31) % 2 ^ 32
          = ((data.length + s.buf.length : Nat) : Int) - (s.pos : Int) + 2 ^ 31 :=
        Int.emod_eq_of_lt (by omega) (by omega)
      rw [e]; omega
    rw [this]

theorem size_available_position_witness :
    (∃ h2, File.size (bigCard 5) (File.ofFILE (some 1) "big".toList) = some (h2, 5) ∧
      File.position h2 (File.ofFILE (some 1) "big".toList) = some 0) ∧
    (5 - 0 < 2 ^ 31 →
      ∃ h2, File.available (bigCard 5) (File.ofFILE (some 1) "big".toList)
          = some (h2, ((5 - 0 : Nat) : Int)) ∧
        File.position h2 (File.ofFILE (some 1) "big".toList) = some 0) :=
  size_available_position (bigCard 5) (File.ofFILE (some 1) "big".toList) 1
    ⟨mountKey ++ ["big".toList], 0, false, []⟩ (List.replicate 5 0)
    rfl (by decide) (by decide) (by decide) (by decide)

/-! ## Round trip -/

theorem flush_data_nobuf (h : Host) (id : Nat) (s : FStream) (hb : s.buf = []) :
    (h.flush id s).data s.key = h.data s.key := by
  cases hl : fsLookup h.fs s.key with
  | none => simp [Host.flush, hl, Host.data, Host.setFile]
  | some n =>
    cases n with
    | file d =>
      rw [flush_data_file h id s d hl, hb]
      simp [Host.data, hl]
    | dir => simp [Host.flush, hl, Host.data, Host.setFile]
    | special => simp [Host.flush, hl, Host.data, Host.setFile]

theorem flush_isDir (h : Host) (id : Nat) (s : FStream) (k : List CStr)
    (hd : fsIsDir h.fs k = true) : fsIsDir (h.flush id s).fs k = true := by
  unfold Host.flush
  split
  · rename_i d hl
    exact fsIsDir_setData _ _ _ _ hl k hd
  · exact hd

theorem readUntilEnd_spec (f : File) (id : Nat) (key : List CStr) (a : Bool)
    (hf : f._file = some id) :
    ∀ (fuel : Nat) (h : Host) (p : Nat), h.file id = some ⟨key, p, a, []⟩ →
      (h.data key).length - p < fuel →
      (readUntilEnd fuel h f).map Prod.snd
        = some (((h.data key).drop p).map (fun b => (b.val : Int))) := by
  intro fuel
  induction fuel with
  | zero => intro h p _ hlt; omega
  | succ fuel ih =>
    intro h p hs hlt
    have hfl : (h.flush id ⟨key, p, a, []⟩).data key = h.data key :=
      flush_data_nobuf h id ⟨key, p, a, []⟩ rfl
    unfold readUntilEnd
    simp only [File.read, fgetc, hf, hs, hfl]
    cases hg : (h.data key).get? p with
    | none =>
      have hle : (h.data key).length ≤ p := List.get?_eq_none.mp hg
      simp [List.drop_eq_nil_of_le hle]
    | some b =>
      have hlt2 : p < (h.data key).length := by
        rcases Nat.lt_or_ge p (h.data key).length with h1 | h1
        · exact h1
        · have : (h.data key).get? p = none := List.get?_eq_none.mpr h1
          rw [this] at hg
          exact absurd hg (by simp)
      have hb : ((b.val : Nat) : Int) ≠ -1 := by omega
      have hs1 := flush_file h id _ ⟨key, p, a, []⟩ hs
      have hs2 := setFile_file (h.flush id ⟨key, p, a, []⟩) id _ ⟨key, p + 1, a, []⟩ hs1
      have hrec := ih ((h.flush id ⟨key, p, a, []⟩).setFile id ⟨key, p + 1, a, []⟩) (p + 1) hs2
        (by rw [setFile_data, hfl]; omega)
      rw [setFile_data, hfl] at hrec
      have hdrop : (h.data key).drop p = b :: (h.data key).drop (p + 1) := by
        have hb2 : (h.data key)[p] = b := by
          have := List.get?_eq_get hlt2
          rw [this] at hg
          simpa using hg
        rw [← hb2]
        exact List.drop_eq_getElem_cons hlt2
      simp only [hb, if_false, hdrop, List.map_cons]
      cases hr : readUntilEnd fuel
          ((h.flush id ⟨key, p, a, []⟩).setFile id ⟨key, p + 1, a, []⟩) f with
      | none => simp [hr] at hrec
      | some r =>
        simp only [hr, Option.map_some'] at hrec ⊢
        simp at hrec
        simp [hrec]

theorem write_buf_buffers (h : Host) (f : File) (id : Nat) (s : FStream) (B : List Byte)
    (hf : f._file = some id) (hs : h.file id = some s) (ha : s.append = true) :
    ∃ h2 s2, File.write_buf h f B B.length = some (h2, B.length) ∧ h2.fs = h.fs ∧
      h2.file id = some s2 ∧ s2.key = s.key ∧ s2.buf = s.buf ++ B := by
  by_cases hB : B = []
  · subst hB
    exact ⟨h, s, by simp [File.write_buf, fwrite, hf, hs, ha], rfl, hs, rfl, by simp⟩
  · have hset := setFile_file h id s
      ⟨s.key, (h.data s.key).length + (s.buf ++ B).length, s.append, s.buf ++ B⟩ hs
    exact ⟨h.setFile id
        ⟨s.key, (h.data s.key).length + (s.buf ++ B).length, s.append, s.buf ++ B⟩,
      ⟨s.key, (h.data s.key).length + (s.buf ++ B).length, s.append, s.buf ++ B⟩,
      by simp [File.write_buf, fwrite, hf, hs, ha, hB], rfl, hset, rfl, rfl⟩

theorem close_flushes (h : Host) (f : File) (id : Nat) (s : FStream) (d : List Byte)
    (hf : f._file = some id) (hs : h.file id = some s)
    (hd : fsLookup h.fs s.key = some (Node.file d)) :
    ∃ h3 f3, File.close h f = some (h3, f3) ∧
      fsLookup h3.fs s.key = some (Node.file (d ++ s.buf)) ∧
      (∀ k, fsIsDir h.fs k = true → fsIsDir h3.fs k = true) := by
  refine ⟨{ (h.flush id s) with files := (h.flush id s).files.filter (fun e => e.1 != id) },
    { f with _file := none, _dirp := none }, ?_, flush_lookup_file h id s d hd,
    fun k hk => flush_isDir h id s k hk⟩
  simp [File.close, File.check_exists, hf, fclose, hs]

/-- C2 (as stated, refuted): on a mounted empty card the path `new/` does not
exist and its parent directory is present, yet `open("new/", FILE_WRITE)`
returns a handle that is not open (`fopen` refuses the trailing `/`), the write
on its null stream faults and nothing is read back. -/
theorem round_trip_trailing_slash_fails :
    SDClass.exists emptyCard "new/".toList = false ∧
    namei emptyCard.fs (sd_path "new/".toList) = some (mountKey ++ ["new".toList]) ∧
    fsIsDir emptyCard.fs mountKey = true ∧
    (SDClass.open sampleModes emptyCard "new/".toList sampleModes.FILE_WRITE).2.operator_bool
      = false ∧
    (∀ fuel : Nat,
      writeCloseReopenRead sampleModes emptyCard "new/".toList [104, 101, 108, 108, 111] fuel
        = none) := by
  refine ⟨by decide, by decide, by decide, by decide, fun fuel => rfl⟩

/-- C2 (amended): when the resolved path of `P` does not exist, its leading
components resolve to directories (parent directory present) and `P` does not
end in `/`, then for every byte sequence `B` the session `open(P, FILE_WRITE)`,
`write(B, |B|)`, `close()`, `open(P, FILE_READ)`, read until the end marker
completes (given more than `|B|` reads), `write` returns `|B|`, and the values
read are the bytes of `B` in order. -/
theorem write_close_read_round_trip (m : Modes) (h : Host) (P : CStr) (key : List CStr)
    (B : List Byte) (fuel : Nat)
    (hex : SDClass.exists h P = false)
    (hk : namei h.fs (sd_path P) = some key)
    (ht : trailingSlash (sd_path P) = false)
    (hfuel : B.length < fuel) :
    writeCloseReopenRead m h P B fuel = some (B.length, B.map (fun b => (b.val : Int))) := by
  obtain ⟨hl, hopen⟩ := open_write_absent m h P key hex hk ht
  have hl1 : fsLookup (h.fs ++ [(key, Node.file [])]) key = some (Node.file []) := by
    simp [fsLookup_append, hl]
  have hk1 : namei (h.fs ++ [(key, Node.file [])]) (sd_path P) = some key :=
    namei_mono _ _ (fun k hd => fsIsDir_append _ _ _ _ hd) _ _ hk
  -- after `write` the bytes are in the buffer of the stream
  obtain ⟨h2, s2, hw, hfs2, hs2, hkey2, hbuf2⟩ := write_buf_buffers
    { h with fs := h.fs ++ [(key, Node.file [])],
             files := (h.next, ⟨key, 0, true, []⟩) :: h.files, next := h.next + 1 }
    (File.ofFILE (some h.next) P) h.next ⟨key, 0, true, []⟩ B rfl (by simp [Host.file]) rfl
  simp only at hkey2 hbuf2 hfs2
  -- `close` flushes them to the file
  have hl2 : fsLookup h2.fs s2.key = some (Node.file []) := by rw [hfs2, hkey2]; exact hl1
  obtain ⟨h3, f3, hc, hl3, hdir3⟩ := close_flushes h2 (File.ofFILE (some h.next) P) h.next s2 []
    rfl hs2 hl2
  rw [hkey2, hbuf2] at hl3
  simp only [List.nil_append] at hl3
  have hk3 : namei h3.fs (sd_path P) = some key :=
    namei_mono _ _ hdir3 _ _ (by rw [hfs2]; exact hk1)
  have hopen2 := open_read_file m h3 P key B hk3 hl3 ht
  have hread := readUntilEnd_spec (File.ofFILE (some h3.next) P) h3.next key false rfl fuel
    { h3 with files := (h3.next, ⟨key, 0, false, []⟩) :: h3.files, next := h3.next + 1 } 0
    (by simp [Host.file]) (by simp [Host.data, hl3]; exact hfuel)
  simp only [Host.data, hl3, List.drop_zero] at hread
  unfold writeCloseReopenRead
  simp only [hopen, hw, hc, hopen2]
  cases hr : readUntilEnd fuel
      { h3 with files := (h3.next, ⟨key, 0, false, []⟩) :: h3.files, next := h3.next + 1 }
      (File.ofFILE (some h3.next) P) with
  | none => simp [hr] at hread
  | some r =>
    simp only [hr, Option.map_some'] at hread ⊢
    simp at hread
    simp [hread]

/-- The scenario of the specification: after `mkdir("a/b/c")`, writing `hello` to
`a/b/c/file.txt`, closing, reopening for reading and reading to the end gives
`hello`. -/
theorem write_close_read_round_trip_witness :
    writeCloseReopenRead sampleModes cardABC "a/b/c/file.txt".toList [104, 101, 108, 108, 111] 6
      = some (5, [104, 101, 108, 108, 111]) :=
  write_close_read_round_trip sampleModes cardABC "a/b/c/file.txt".toList
    (mountKey ++ ["a".toList, "b".toList, "c".toList, "file.txt".toList])
    [104, 101, 108, 108, 111] 6 (by decide) (by decide) (by decide) (by decide)

/-! ## Directory creation -/

theorem pathComponentsAux_append (w : List Char) (hw : '/' ∉ w) :
    ∀ (cur rest : List Char),
      pathComponentsAux cur (w ++ rest) = pathComponentsAux (cur ++ w) rest := by
  induction w with
  | nil => intro cur rest; simp
  | cons a w ih =>
    intro cur rest
    have ha : a ≠ '/' := fun h => hw (by simp [h])
    have hw2 : '/' ∉ w := fun h => hw (by simp [h])
    simp only [List.cons_append, pathComponentsAux, if_neg ha, List.append_eq]
    rw [ih hw2]
    simp

theorem pathComponentsAux_joinTail :
    ∀ (cs : List CStr) (cur : List Char), cur ≠ [] → (∀ c ∈ cs, PlainName c) →
      pathComponentsAux cur (joinTail cs) = cur :: cs ∧
      pathComponentsAux cur (joinTail cs ++ ['/']) = cur :: cs := by
  intro cs
  induction cs with
  | nil => intro cur hcur _; simp [joinTail, pathComponentsAux, hcur]
  | cons c cs ih =>
    intro cur hcur hcs
    have hc : PlainName c := hcs c (by simp)
    have hrest := ih c hc.1 (fun x hx => hcs x (by simp [hx]))
    simp only [joinTail, List.cons_append, pathComponentsAux, if_true, if_neg hcur,
      List.append_assoc, List.append_eq]
    rw [pathComponentsAux_append c hc.2.1, pathComponentsAux_append c hc.2.1]
    simp only [List.nil_append]
    exact ⟨by rw [hrest.1], by rw [hrest.2]⟩

theorem pathComponents_sd_path (x : CStr) :
    pathComponents (sd_path x) = mountKey ++ pathComponentsAux [] x := by
  simp [pathComponents, sd_path, SD_MOUNT_PATH, pathComponentsAux, mountKey]

theorem pathComponents_joinPath (ds : List CStr) (hne : ds ≠ [])
    (hds : ∀ c ∈ ds, PlainName c) :
    pathComponents (sd_path (joinPath ds)) = mountKey ++ ds := by
  rw [pathComponents_sd_path]
  cases ds with
  | nil => exact absurd rfl hne
  | cons c cs =>
    have hc : PlainName c := hds c (by simp)
    simp only [joinPath]
    rw [pathComponentsAux_append c hc.2.1, List.nil_append]
    rw [(pathComponentsAux_joinTail cs c hc.1 (fun x hx => hds x (by simp [hx]))).1]

theorem walk_plain (fs : FileSys) :
    ∀ (cs cur : List CStr), (∀ c ∈ cs, PlainName c) →
      (∀ k, k < cs.length → fsIsDir fs (cur ++ cs.take k) = true) →
      walk fs cur cs = some (cur ++ cs) := by
  intro cs
  induction cs with
  | nil => intro cur _ _; simp [walk]
  | cons c cs ih =>
    intro cur hcs hd
    have hc : PlainName c := hcs c (by simp)
    have h0 : fsIsDir fs cur = true := by simpa using hd 0 (by simp)
    have hstep : walkStep cur c = cur ++ [c] := by
      simp [walkStep, hc.2.2.2.1, hc.2.2.2.2]
    unfold walk
    rw [if_pos h0, hstep, ih (cur ++ [c]) (fun x hx => hcs x (by simp [hx]))]
    · simp
    · intro k hk
      have := hd (k + 1) (by simpa using hk)
      simpa using this

theorem namei_joinPath (fs : FileSys) (ds : List CStr) (hne : ds ≠ [])
    (hds : ∀ c ∈ ds, PlainName c)
    (hm1 : fsIsDir fs ["media".toList] = true)
    (hd : ∀ k, k < ds.length → fsIsDir fs (mountKey ++ ds.take k) = true) :
    namei fs (sd_path (joinPath ds)) = some (mountKey ++ ds) := by
  unfold namei
  have hp : sd_path (joinPath ds) ≠ [] := by simp [sd_path, SD_MOUNT_PATH]
  rw [if_neg hp, pathComponents_joinPath ds hne hds]
  have hroot : fsIsDir fs [] = true := by simp [fsIsDir, fsLookup]
  have hw := walk_plain fs ds mountKey hds hd
  simp only [mountKey, List.cons_append, List.nil_append, walk, hroot, if_true, walkStep] at hw ⊢
  have e1 : ("media".toList = ['.']) = False := by decide
  have e2 : ("media".toList = ['.', '.']) = False := by decide
  have e3 : ("mmcblk0p1".toList = ['.']) = False := by decide
  have e4 : ("mmcblk0p1".toList = ['.', '.']) = False := by decide
  simp only [e1, e2, e3, e4, if_false, List.nil_append, List.cons_append, List.append_eq]
  have hm2 : fsIsDir fs ["media".toList, "mmcblk0p1".toList] = true := by
    have := hd 0 (List.length_pos.mpr hne)
    simpa [mountKey] using this
  simp only [hm1, hm2, if_true]
  exact hw

theorem joinTail_snoc (cs : List CStr) (c : CStr) :
    joinTail (cs ++ [c]) = joinTail cs ++ '/' :: c := by
  induction cs with
  | nil => simp [joinTail]
  | cons d cs ih => simp [joinTail, ih]

theorem joinPath_snoc (ds : List CStr) (c : CStr) (hne : ds ≠ []) :
    joinPath (ds ++ [c]) = joinPath ds ++ '/' :: c := by
  cases ds with
  | nil => exact absurd rfl hne
  | cons d ds => simp [joinPath, joinTail_snoc]

theorem nul_not_mem_joinTail (cs : List CStr) (hcs : ∀ c ∈ cs, PlainName c) :
    '\x00' ∉ joinTail cs := by
  induction cs with
  | nil => simp [joinTail]
  | cons c cs ih =>
    have hc : PlainName c := hcs c (by simp)
    have := ih (fun x hx => hcs x (by simp [hx]))
    simp only [joinTail, List.mem_cons, List.mem_append, not_or]
    exact ⟨⟨by decide, hc.2.2.1⟩, this⟩

theorem getLast?_plain (c : CStr) (hc : PlainName c) :
    ∃ x, c.getLast? = some x ∧ x ≠ '/' := by
  refine ⟨c.getLast hc.1, List.getLast?_eq_getLast c hc.1, ?_⟩
  intro h
  exact hc.2.1 (h ▸ List.getLast_mem hc.1)

theorem getLast?_joinTail (cs : List CStr) (hcs : ∀ c ∈ cs, PlainName c) :
    joinTail cs = [] ∨ ∃ x, (joinTail cs).getLast? = some x ∧ x ≠ '/' := by
  induction cs with
  | nil => left; rfl
  | cons c cs ih =>
    right
    have hc : PlainName c := hcs c (by simp)
    obtain ⟨x, hx, hxs⟩ := getLast?_plain c hc
    have hne : c ++ joinTail cs ≠ [] := by simp [hc.1]
    obtain ⟨a, l, hal⟩ := List.exists_cons_of_ne_nil hne
    have hl : (joinTail (c :: cs)).getLast? = (c ++ joinTail cs).getLast? := by
      simp only [joinTail, List.cons_append, List.append_eq]
      rw [hal, List.getLast?_cons_cons]
    rw [hl, List.getLast?_append]
    rcases ih (fun y hy => hcs y (by simp [hy])) with h | ⟨y, hy, hys⟩
    · exact ⟨x, by simp [h, hx], hxs⟩
    · exact ⟨y, by simp [hy], hys⟩

theorem getLast?_joinPath (cs : List CStr) (hne : cs ≠ []) (hcs : ∀ c ∈ cs, PlainName c) :
    ∃ x, (joinPath cs).getLast? = some x ∧ x ≠ '/' := by
  cases cs with
  | nil => exact absurd rfl hne
  | cons c cs =>
    have hc : PlainName c := hcs c (by simp)
    obtain ⟨x, hx, hxs⟩ := getLast?_plain c hc
    simp only [joinPath, List.getLast?_append]
    rcases getLast?_joinTail cs (fun y hy => hcs y (by simp [hy])) with h | ⟨y, hy, hys⟩
    · exact ⟨x, by simp [h, hx], hxs⟩
    · exact ⟨y, by simp [hy], hys⟩

theorem takeWhile_nul (pre rest : List Char) (hz : '\x00' ∉ pre) :
    (pre ++ '\x00' :: rest).takeWhile (fun x => x != '\x00') = pre := by
  apply takeWhile_append_stop
  · intro x hx
    have : x ≠ '\x00' := fun h => hz (h ▸ hx)
    simpa using this
  · simp

theorem mkdirLoop_component (w : List Char) (hs : '/' ∉ w) (hz : '\x00' ∉ w) :
    ∀ (h : Host) (pre rest : List Char),
      mkdirLoop h pre (w ++ rest) = mkdirLoop h (pre ++ w) rest := by
  induction w with
  | nil => intro h pre rest; simp
  | cons a w ih =>
    intro h pre rest
    have ha : a ≠ '/' := fun e => hs (by simp [e])
    have hb : a ≠ '\x00' := fun e => hz (by simp [e])
    have hs2 : '/' ∉ w := fun e => hs (by simp [e])
    have hz2 : '\x00' ∉ w := fun e => hz (by simp [e])
    simp only [List.cons_append, mkdirLoop, if_neg ha, if_neg hb, List.append_eq]
    rw [ih hs2 hz2]
    simp

theorem mkdirLoop_joinTail (z : List Char) :
    ∀ (cs : List CStr) (h : Host) (pre : List Char), '\x00' ∉ pre →
      (∀ c ∈ cs, PlainName c) →
      sys_mkdir (mkdirLoop h pre (joinTail cs ++ '\x00' :: z)) (sd_path (pre ++ joinTail cs))
        = mkdirAll h pre cs := by
  intro cs
  induction cs with
  | nil => intro h pre _ _; simp [joinTail, mkdirLoop, mkdirAll]
  | cons c cs ih =>
    intro h pre hz hcs
    have hc : PlainName c := hcs c (by simp)
    have hz2 : '\x00' ∉ pre ++ '/' :: c := by
      simp only [List.mem_append, List.mem_cons, not_or]
      exact ⟨hz, by decide, hc.2.2.1⟩
    have hne : ¬ ('/' = '\x00') := by decide
    have := ih (sys_mkdir h (sd_path pre)).1 (pre ++ '/' :: c) hz2
      (fun x hx => hcs x (by simp [hx]))
    simp only [joinTail, List.cons_append, mkdirLoop, if_neg hne, if_true, mkdirAll,
      List.append_eq, List.append_assoc]
    rw [takeWhile_nul pre _ hz, mkdirLoop_component c hc.2.1 hc.2.2.1]
    simp only [List.append_assoc, List.cons_append, List.nil_append] at this ⊢
    exact this

theorem sys_mkdir_fresh (h : Host) (path : CStr) (key : List CStr)
    (hk : namei h.fs path = some key) (hl : fsLookup h.fs key = none) :
    sys_mkdir h path =
      ({ h with mkdirCalls := h.mkdirCalls ++ [path], fs := h.fs ++ [(key, Node.dir)] }, 0) := by
  simp [sys_mkdir, hk, hl]

theorem mkdirAll_spec :
    ∀ (cs ds : List CStr) (h : Host), ds ≠ [] → (∀ c ∈ ds, PlainName c) →
      (∀ c ∈ cs, PlainName c) →
      fsIsDir h.fs ["media".toList] = true →
      (∀ k, k < ds.length → fsIsDir h.fs (mountKey ++ ds.take k) = true) →
      (∀ j, j ≤ cs.length → fsLookup h.fs (mountKey ++ (ds ++ cs.take j)) = none) →
      ∃ h2, mkdirAll h (joinPath ds) cs = (h2, 0) ∧
        h2.mkdirCalls = h.mkdirCalls ++
          (List.range (cs.length + 1)).map (fun j => sd_path (joinPath (ds ++ cs.take j))) ∧
        (∀ k, k ≤ (ds ++ cs).length → fsIsDir h2.fs (mountKey ++ (ds ++ cs).take k) = true) ∧
        fsIsDir h2.fs ["media".toList] = true := by
  intro cs
  induction cs with
  | nil =>
    intro ds h hne hds _ hm hd hf
    have hk := namei_joinPath h.fs ds hne hds hm hd
    have hl : fsLookup h.fs (mountKey ++ ds) = none := by simpa using hf 0 (by simp)
    refine ⟨_, by rw [mkdirAll]; exact sys_mkdir_fresh h _ _ hk hl, by simp, ?_,
      fsIsDir_append _ _ _ _ hm⟩
    intro k hk2
    simp only [List.append_nil] at hk2 ⊢
    rcases Nat.lt_or_ge k ds.length with h1 | h1
    · exact fsIsDir_append _ _ _ _ (hd k h1)
    · have : ds.take k = ds := List.take_of_length_le h1
      simp [this, fsIsDir, fsLookup_append, hl]
  | cons c cs ih =>
    intro ds h hne hds hcs hm hd hf
    have hc : PlainName c := hcs c (by simp)
    have hk := namei_joinPath h.fs ds hne hds hm hd
    have hl : fsLookup h.fs (mountKey ++ ds) = none := by simpa using hf 0 (by simp)
    have hmk := sys_mkdir_fresh h _ _ hk hl
    have hds2 : ∀ x ∈ ds ++ [c], PlainName x := by
      intro x hx
      rcases List.mem_append.mp hx with h1 | h1
      · exact hds x h1
      · have : x = c := by simpa using h1
        exact this ▸ hc
    obtain ⟨h2, hrun, hcalls, hdirs, hmedia⟩ := ih (ds ++ [c])
      { h with mkdirCalls := h.mkdirCalls ++ [sd_path (joinPath ds)],
               fs := h.fs ++ [(mountKey ++ ds, Node.dir)] }
      (by simp) hds2 (fun x hx => hcs x (by simp [hx]))
      (fsIsDir_append _ _ _ _ hm)
      (by
        intro k hk2
        simp only [List.length_append, List.length_singleton] at hk2
        rcases Nat.lt_or_ge k ds.length with h1 | h1
        · have : (ds ++ [c]).take k = ds.take k := by
            rw [List.take_append_of_le_length (by omega)]
          rw [this]
          exact fsIsDir_append _ _ _ _ (hd k h1)
        · have hk3 : k = ds.length := by omega
          have : (ds ++ [c]).take k = ds := by
            rw [hk3]; simp
          simp [this, fsIsDir, fsLookup_append, hl])
      (by
        intro j hj
        have h1 := hf (j + 1) (by simpa using hj)
        have e : ds ++ [c] ++ cs.take j = ds ++ (c :: cs).take (j + 1) := by simp
        rw [e]
        have hne2 : mountKey ++ (ds ++ (c :: cs).take (j + 1)) ≠ mountKey ++ ds := by
          intro he
          have := congrArg List.length he
          simp at this
        rw [fsLookup_append, h1]
        simp only
        rw [if_neg hne2])
    refine ⟨h2, ?_, ?_, ?_, hmedia⟩
    · rw [mkdirAll, hmk]
      simp only
      rw [← joinPath_snoc ds c hne]
      exact hrun
    · rw [hcalls]
      simp only [List.length_cons]
      rw [List.range_succ_eq_map (cs.length + 1)]
      simp only [List.map_cons, List.map_map, List.take_zero, List.append_nil,
        List.append_assoc, List.singleton_append, List.cons_append, List.nil_append]
      congr 1
    · intro k hk2
      have e : ds ++ [c] ++ cs = ds ++ c :: cs := by simp
      rw [e] at hdirs
      exact hdirs k hk2

theorem mkdir_eq_mkdirAll (h : Host) (c : CStr) (cs : List CStr) (t P : CStr)
    (hcs : ∀ x ∈ c :: cs, PlainName x)
    (ht : t = [] ∨ t = ['/']) (hP : P = joinPath (c :: cs) ++ t) (hlen : P.length < 256) :
    SDClass.mkdir h P = some ((mkdirAll h c cs).1, toBoolean (mkdirAll h c cs).2) := by
  have hc : PlainName c := hcs c (by simp)
  have hcs2 : ∀ x ∈ cs, PlainName x := fun x hx => hcs x (by simp [hx])
  have hsn : snprintf 256 P = P := by
    unfold snprintf
    exact List.take_of_length_le (by omega)
  obtain ⟨a, w, haw⟩ := List.exists_cons_of_ne_nil hc.1
  have hPne : P.length ≠ 0 := by
    rw [hP, haw]; simp [joinPath]
  obtain ⟨x, hx, hxs⟩ := getLast?_joinPath (c :: cs) (by simp) hcs
  obtain ⟨z, htmp⟩ : ∃ z, (if P.getLast? = some '/' then P.dropLast ++ ['\x00', '\x00']
      else P ++ ['\x00']) = joinPath (c :: cs) ++ '\x00' :: z := by
    rcases ht with h1 | h1
    · subst h1
      simp only [List.append_nil] at hP
      refine ⟨[], ?_⟩
      rw [hP, hx]
      have : ¬ (some x = some '/') := by simpa using hxs
      rw [if_neg this]
    · subst h1
      refine ⟨['\x00'], ?_⟩
      rw [hP, List.getLast?_concat, if_pos rfl, List.dropLast_concat]
  have hz : '\x00' ∉ joinPath (c :: cs) := by
    simp only [joinPath, List.mem_append, not_or]
    exact ⟨hc.2.2.1, nul_not_mem_joinTail cs hcs2⟩
  have htw : (joinPath (c :: cs) ++ '\x00' :: z).takeWhile (fun x => x != '\x00')
      = joinPath (c :: cs) := takeWhile_nul _ z hz
  have hs2 : '/' ∉ w := fun e => hc.2.1 (by rw [haw]; simp [e])
  have hz2 : '\x00' ∉ w := fun e => hc.2.2.1 (by rw [haw]; simp [e])
  have hloop : mkdirLoop h ((joinPath (c :: cs) ++ '\x00' :: z).take 1)
      ((joinPath (c :: cs) ++ '\x00' :: z).drop 1)
      = mkdirLoop h c (joinTail cs ++ '\x00' :: z) := by
    simp only [joinPath, haw, List.cons_append, List.take_succ_cons, List.take_zero,
      List.drop_succ_cons, List.drop_zero, List.append_assoc]
    rw [mkdirLoop_component w hs2 hz2]
    simp
  unfold SDClass.mkdir
  simp only [hsn, hPne, if_false, htmp, htw, hloop]
  have := mkdirLoop_joinTail z cs h c hc.2.2.1 hcs2
  simp only [joinPath]
  rw [this]

/-- C7: for a relative path `P` of fewer than 256 bytes made of components
joined by `/` (one trailing `/` allowed), on a mounted volume where no leading
part of `P` exists, `SDClass::mkdir(P)` issues one `mkdir` for each leading part
of `P` in increasing length, the last for `P` without its trailing `/`;
every one of them is then an existing directory, and the result is false
(the 0 of the last call). -/
theorem mkdir_creates_every_level (h : Host) (comps : List CStr) (t P : CStr)
    (hne : comps ≠ []) (hcomps : ∀ c ∈ comps, PlainName c)
    (ht : t = [] ∨ t = ['/']) (hP : P = joinPath comps ++ t) (hlen : P.length < 256)
    (hm : Mounted h)
    (hfresh : ∀ k, 1 ≤ k → k ≤ comps.length →
      fsLookup h.fs (mountKey ++ comps.take k) = none) :
    ∃ h2, SDClass.mkdir h P = some (h2, false) ∧
      h2.mkdirCalls = h.mkdirCalls ++
        (List.range comps.length).map (fun k => sd_path (joinPath (comps.take (k + 1)))) ∧
      (∀ k, 1 ≤ k → k ≤ comps.length →
        sys_stat h2.fs (sd_path (joinPath (comps.take k))) = some Node.dir) := by
  cases comps with
  | nil => exact absurd rfl hne
  | cons c cs =>
    have hc : PlainName c := hcomps c (by simp)
    have hcs2 : ∀ x ∈ cs, PlainName x := fun x hx => hcomps x (by simp [hx])
    obtain ⟨h2, hrun, hcalls, hdirs, hmedia⟩ := mkdirAll_spec cs [c] h (by simp)
      (by intro x hx; have : x = c := by simpa using hx
          exact this ▸ hc)
      hcs2 hm.1
      (by intro k hk
          have : k = 0 := by simpa using hk
          subst this
          simpa using hm.2)
      (by intro j hj
          have := hfresh (j + 1) (by omega) (by simpa using hj)
          simpa using this)
    have hj1 : joinPath [c] = c := by simp [joinPath, joinTail]
    rw [hj1] at hrun
    refine ⟨h2, ?_, ?_, ?_⟩
    · rw [mkdir_eq_mkdirAll h c cs t P hcomps ht hP hlen, hrun]
      rfl
    · rw [hcalls]
      simp
    · intro k hk1 hk2
      have hdirs2 : ∀ j, j ≤ (c :: cs).length →
          fsIsDir h2.fs (mountKey ++ (c :: cs).take j) = true := by
        intro j hj
        have := hdirs j (by simpa using hj)
        simpa using this
      have hne2 : (c :: cs).take k ≠ [] := by
        obtain ⟨k2, rfl⟩ : ∃ k2, k = k2 + 1 := ⟨k - 1, by omega⟩
        simp
      have hk3 := namei_joinPath h2.fs ((c :: cs).take k) hne2
        (fun x hx => hcomps x (List.mem_of_mem_take hx)) hmedia
        (by
          intro j hj
          have hj2 : j < k := by
            have := List.length_take_le k (c :: cs)
            omega
          have : ((c :: cs).take k).take j = (c :: cs).take j := by
            rw [List.take_take, Nat.min_eq_left (by omega)]
          rw [this]
          exact hdirs2 j (by omega))
      have hl : fsLookup h2.fs (mountKey ++ (c :: cs).take k) = some Node.dir := by
        have := hdirs2 k hk2
        simpa [fsIsDir] using this
      simp [sys_stat, hk3, hl]

theorem mkdir_creates_every_level_witness :
    ∃ h2, SDClass.mkdir emptyCard "a/b/c/".toList = some (h2, false) ∧
      h2.mkdirCalls = emptyCard.mkdirCalls ++
        (List.range ["a".toList, "b".toList, "c".toList].length).map
          (fun k => sd_path (joinPath (["a".toList, "b".toList, "c".toList].take (k + 1)))) ∧
      (∀ k, 1 ≤ k → k ≤ ["a".toList, "b".toList, "c".toList].length →
        sys_stat h2.fs (sd_path (joinPath (["a".toList, "b".toList, "c".toList].take k)))
          = some Node.dir) :=
  mkdir_creates_every_level emptyCard ["a".toList, "b".toList, "c".toList] ['/']
    "a/b/c/".toList (by decide) (by decide) (by decide) (by decide) (by decide) (by decide)
    (by decide)

end SD
